import Mathlib

/-!
Shallow embedding of the `logger` package (files `logger/logger.go`, the
multi-file variant, and the unnamed single-handle variant) together with
proofs about its rotation decision, backup renumbering, formatting and
error handling.

Go strings are modelled as lists of characters (`GoStr`); the Go standard
library functions used by the package (`strings.Split` with a one-character
separator, `strings.Index`, `strings.ToUpper`/`ToLower`, `strconv.Atoi`,
`fmt.Sprintf` with `%d`) are given faithful executable counterparts below.
-/

set_option autoImplicit false

abbrev GoStr := List Char

/-- Embedding of Go `strings.Split(s, sep)` for a one-character separator
(the package only splits on `"_"`, `"."` and `"\n"`).  `Split` of the empty
string returns one empty part, matching Go. -/
def goSplit (sep : Char) : GoStr → List GoStr
  | [] => [[]]
  | c :: rest =>
    match goSplit sep rest with
    | [] => [[c]]
    | p :: ps => if c = sep then [] :: p :: ps else (c :: p) :: ps

/-- `goHasPre pre s` tests whether `pre` occurs at the start of `s`
(the `strings.Index(s, pre) == 0` pattern used throughout the package). -/
def goHasPre : GoStr → GoStr → Bool
  | [], _ => true
  | _ :: _, [] => false
  | a :: as, b :: bs => decide (a = b) && goHasPre as bs

/-- Embedding of Go `strings.Index(s, sub)`: byte index of the first
occurrence of `sub` in `s`, or `-1` when absent. -/
def goIndex (s sub : GoStr) : Int :=
  if goHasPre sub s then 0
  else
    match s with
    | [] => -1
    | _ :: rest =>
      let r := goIndex rest sub
      if r = -1 then -1 else r + 1

/-- Numeric value of a decimal digit character. -/
def digitVal (c : Char) : Nat := c.toNat - 48

/-- Big-endian decimal parse of a digit string. -/
def parseNat (s : GoStr) : Nat := s.foldl (fun a c => a * 10 + digitVal c) 0

/-- Fuel-driven decimal rendering, most significant digit first. -/
def natDigitsAux : Nat → Nat → GoStr
  | 0, _ => []
  | fuel + 1, n =>
    if n < 10 then [Nat.digitChar n]
    else natDigitsAux fuel (n / 10) ++ [Nat.digitChar (n % 10)]

/-- Embedding of `fmt.Sprintf("%d", n)` for a nonnegative value: the usual
decimal rendering of `n`. -/
def natDigits (n : Nat) : GoStr := natDigitsAux (n + 1) n

/-- Embedding of the `suffix, _ = strconv.Atoi(s)` idiom (the error is
discarded and the zero result kept): the parsed value of an all-digit
nonempty string, and `0` otherwise.  (Go's `Atoi` also accepts a sign; no
caller in the package produces signed input.) -/
def atoiNat (s : GoStr) : Nat :=
  if s ≠ [] ∧ s.all Char.isDigit then parseNat s else 0

/-- ASCII upper-casing of one character (codes 97–122 are the letters
`a`–`z`), as Go `strings.ToUpper` acts on the package's ASCII level
codes. -/
def goUpperChar (c : Char) : Char :=
  if 97 ≤ c.toNat ∧ c.toNat ≤ 122 then Char.ofNat (c.toNat - 32) else c

/-- Embedding of Go `strings.ToUpper` on ASCII input. -/
def goToUpper (s : GoStr) : GoStr := s.map goUpperChar

/-- ASCII lower-casing of one character (codes 65–90 are `A`–`Z`). -/
def goLowerChar (c : Char) : Char :=
  if 65 ≤ c.toNat ∧ c.toNat ≤ 90 then Char.ofNat (c.toNat + 32) else c

/-- Embedding of Go `strings.ToLower` on ASCII input. -/
def goToLower (s : GoStr) : GoStr := s.map goLowerChar

/-! ### `getSuffix`: numeric suffix of a backup file name

Embedding of `getSuffix` from `logger.go` (identical in both variants):
split on `"_"`; when there is more than one part, split the second part on
`"."` and parse its first piece with `strconv.Atoi` (the error being
discarded).  Go's `int` result is modelled as `Nat`: every suffix the
package produces is nonnegative. -/

def getSuffix (name : GoStr) : Nat :=
  match goSplit '_' name with
  | _ :: second :: _ => atoiNat ((goSplit '.' second).headD [])
  | _ => 0

/-! ### Log file names

`newFile` opens `<date>.log`; `renameFile` renames backups to
`fmt.Sprintf("%s_%d.log", date, n)`.  File names are modelled relative to
the severity directory (the `fileDir` prefix is common to every name the
function touches). -/

/-- The active base file name `<date>.log`. -/
def baseName (d : GoStr) : GoStr := d ++ ".log".data

/-- The backup file name `fmt.Sprintf("%s_%d.log", date, n)`. -/
def bkName (d : GoStr) (n : Nat) : GoStr :=
  d ++ "_".data ++ natDigits n ++ ".log".data

/-! ### Time and its rendering

A `GoTime` is a `time.Time` already viewed in the configured location
(`timeLocation`): the calendar fields that Go's `Format` reads after
`t.In(timeLocation)`.  The layouts used by the package are
`"2006-01-02"` (file names) and `"2006-01-02 15:04:05"` (line headers):
zero-padded four-digit year and two-digit remaining fields. -/

structure GoTime where
  year : Nat
  month : Nat
  day : Nat
  hour : Nat
  minute : Nat
  second : Nat
deriving DecidableEq, Repr

/-- Zero-pad a digit string on the left to width `w`. -/
def padZero (w : Nat) (s : GoStr) : GoStr :=
  List.replicate (w - s.length) '0' ++ s

/-- A field rendered with Go layout unit `01`/`02`/`15`/`04`/`05`. -/
def pad2 (n : Nat) : GoStr := padZero 2 (natDigits n)

/-- The year rendered with Go layout unit `2006`. -/
def pad4 (n : Nat) : GoStr := padZero 4 (natDigits n)

/-- Embedding of `t.In(timeLocation).Format("2006-01-02")` (the constant
`fileName` layout). -/
def formatDate (t : GoTime) : GoStr :=
  pad4 t.year ++ "-".data ++ pad2 t.month ++ "-".data ++ pad2 t.day

/-- Embedding of `t.In(timeLocation).Format("2006-01-02 15:04:05")` (the
constant `timeFormart` layout). -/
def formatTimestamp (t : GoTime) : GoStr :=
  formatDate t ++ " ".data ++ pad2 t.hour ++ ":".data ++ pad2 t.minute
    ++ ":".data ++ pad2 t.second

/-- Calendar fields small enough that the Go layouts render them at their
nominal widths (every real `time.Time` satisfies this). -/
def ValidTime (t : GoTime) : Prop :=
  t.year < 10000 ∧ t.month < 100 ∧ t.day < 100

instance (t : GoTime) : Decidable (ValidTime t) := by
  unfold ValidTime; infer_instance

/-! ### Records, files and configuration -/

/-- The record type (`Log` in `logger.go`, `LogInfo` in the single-handle
variant; the fields coincide). -/
structure Log where
  Level : GoStr
  Time : GoTime
  Line : GoStr
  Message : GoStr
deriving DecidableEq, Repr

/-- What `os.File.Stat` reports about an open handle or a path: base name
and current size (`int64`, modelled as `Int`). -/
structure FileInfo where
  name : GoStr
  size : Int
deriving DecidableEq, Repr

/-- The `Config` struct of `logger.go` (the single-handle variant's config
lacks `OutputScreen`/`UseColor`).  `TimeLocation` being a pointer, `none`
models `nil`; locations themselves are opaque tokens. -/
structure Config where
  LogDir : GoStr
  LogFileMaxSize : Int
  TimeLocation : Option Nat
  ChannelSize : Nat
  OutputScreen : Bool
  UseColor : Bool
deriving DecidableEq, Repr

namespace Multi

/-! Embedding of `logger/logger.go`, the multi-file variant: one cached
handle per severity bucket in `fileMap`. -/

def debugLevel : GoStr := "DBG".data
def infoLevel : GoStr := "INF".data
def warnLevel : GoStr := "WRN".data
def errorLevel : GoStr := "ERR".data

/-- ANSI escape character `\033`. -/
def escChar : Char := Char.ofNat 27

/-- Embedding of `setLevelColor`: wrap the level in
`fmt.Sprintf("\033[%dm%s\033[0m", color, level)`. -/
def setLevelColor (level : GoStr) : GoStr :=
  let color : Nat :=
    if level = infoLevel then 32
    else if level = debugLevel then 34
    else if level = warnLevel then 33
    else if level = errorLevel then 31
    else 36
  [escChar] ++ "[".data ++ natDigits color ++ "m".data ++ level
    ++ [escChar] ++ "[0m".data

/-- Embedding of `formatLine` from `logger.go`.  The Go function takes a
`*Log` and, when `useColor` is set, reassigns `log.Level` on every loop
iteration; it returns the built string and (through the pointer) the
mutated record, so the embedding returns both.  The `fmt.Print` echo under
`outputScreen` is a console side effect that does not change the returned
value and is not part of the value model. -/
def formatLine (useColor : Bool) (lg : Log) : GoStr × Log :=
  let msgList := goSplit '\n' lg.Message
  msgList.foldl
    (fun acc seg =>
      let cur := if useColor then { acc.2 with Level := setLevelColor acc.2.Level }
        else acc.2
      (acc.1 ++ formatTimestamp cur.Time ++ " [".data ++ cur.Level ++ "] [".data
        ++ cur.Line ++ "] ".data ++ seg ++ ['\n'], cur))
    ([], lg)

/-- The severity bucket chosen by the `switch` at the top of `write`:
`DBG`/`WRN`/`ERR` keep their own bucket, every other level falls through
to the `INF` bucket. -/
def bucketOf (level : GoStr) : GoStr :=
  if level = debugLevel ∨ level = warnLevel ∨ level = errorLevel then level
  else infoLevel

/-- The rotation decision inside `write`: with a cached handle, compare the
handle's size against `logFileMaxSize` and test
`strings.Index(record date, strings.Split(stat.Name(), ".")[0]) != 0`;
with no cached handle a new file is always needed. -/
def needNewFile (cached : Option FileInfo) (maxSize : Int) (recDate : GoStr) :
    Bool :=
  match cached with
  | none => true
  | some stat =>
    let date := (goSplit '.' stat.name).headD []
    decide (stat.size > maxSize) || !(decide (goIndex recDate date = 0))

/-- Result of one `write` call: the updated `fileMap`, the handle written
to, the bytes appended, the bucket used, and whether a fresh file was
opened. -/
structure WriteResult where
  fileMap : List (GoStr × FileInfo)
  target : FileInfo
  written : GoStr
  level : GoStr
  openedNew : Bool
deriving DecidableEq, Repr

/-- Embedding of `write` from `logger.go` for one dequeued record.
Opening a file on disk (`newFile`) is abstracted as the oracle `newF`
giving the handle a fresh open of the bucket's file would return; the
error path in which `newFile` returns `nil` (and the subsequent write
faults) is outside this model.  `file.Close()` on the displaced handle has
no bearing on the data tracked here. -/
def write (newF : GoStr → FileInfo) (useColor : Bool) (maxSize : Int)
    (fileMap : List (GoStr × FileInfo)) (lg : Log) : WriteResult :=
  let level := bucketOf lg.Level
  let cached := fileMap.lookup level
  let needNew := needNewFile cached maxSize (formatDate lg.Time)
  if needNew then
    let file := newF level
    { fileMap := (level, file) :: fileMap.filter (fun e => !(e.1 = level : Bool)),
      target := file, written := (formatLine useColor lg).1, level := level,
      openedNew := true }
  else
    { fileMap := fileMap, target := cached.getD ⟨[], 0⟩,
      written := (formatLine useColor lg).1, level := level, openedNew := false }

end Multi

namespace Single

/-! Embedding of the unnamed single-handle variant: per-write files for
`dbg`/`wrn`/`err`, one long-lived `infoFile` for everything else. -/

def DebugLevel : GoStr := "dbg".data
def InfoLevel : GoStr := "inf".data
def WarnLevel : GoStr := "wrn".data
def ErrorLevel : GoStr := "err".data

/-- Embedding of `formatLine` from the single-handle variant: one line per
newline-separated segment, the level passed through `strings.ToUpper`.
Its unconditional `fmt.Print(result)` echo is a console side effect that
does not change the returned value. -/
def formatLine (lg : Log) : GoStr :=
  (goSplit '\n' lg.Message).foldl
    (fun result seg =>
      result ++ formatTimestamp lg.Time ++ " [".data ++ goToUpper lg.Level
        ++ "] [".data ++ lg.Line ++ "] ".data ++ seg ++ ['\n'])
    []

end Single

/-! ### Package state, `Init` and `Push`

Panics are modelled by `Except GoStr`: `Except.error msg` is a panic with
that message, in which case no state change has happened and nothing was
enqueued. -/

namespace Multi

/-- The package-level mutable state of `logger.go`.  `started` is written
only by the worker goroutine (`start`); `logChan` holds the queued records
in FIFO order (its bounded capacity only bears on blocking, which has no
value-level content here). -/
structure State where
  logDir : GoStr
  timeLocation : Nat
  logFileMaxSize : Int
  logChanCap : Nat
  logChan : List Log
  outputScreen : Bool
  useColor : Bool
  started : Bool
  fileMap : List (GoStr × FileInfo)
deriving DecidableEq, Repr

/-- Embedding of `Init` from `logger.go`: panic `"logger started"` when the
worker has already started, otherwise install the configuration (zero
values keep the defaults) and reset `fileMap`.  The spawned goroutine sets
`started` asynchronously, so `Init` itself leaves it untouched. -/
def Init (st : State) (config : Config) : Except GoStr State :=
  if st.started then Except.error "logger started".data
  else Except.ok
    { st with
      logDir := if config.LogDir ≠ [] then config.LogDir else st.logDir,
      logFileMaxSize :=
        if config.LogFileMaxSize ≠ 0 then config.LogFileMaxSize
        else st.logFileMaxSize,
      timeLocation := (config.TimeLocation).getD st.timeLocation,
      outputScreen := config.OutputScreen,
      useColor := config.UseColor,
      logChanCap := if config.ChannelSize = 0 then 1024 else config.ChannelSize,
      logChan := [],
      fileMap := [] }

/-- Embedding of `Push` from `logger.go`: panic `"logger not start"` when
the worker loop has not started, otherwise enqueue the record. -/
def Push (st : State) (lg : Log) : Except GoStr State :=
  if !st.started then Except.error "logger not start".data
  else Except.ok { st with logChan := st.logChan ++ [lg] }

end Multi

/-- What one `os.Stat` call reports: either a `FileInfo`, or an error
together with whether `os.IsExist` holds of it. -/
inductive StatOut where
  | ok (info : FileInfo)
  | err (isExist : Bool)
deriving DecidableEq, Repr

/-- Embedding of `pathExists` (identical in both variants):
`err == nil || os.IsExist(err)`.  The filesystem is the oracle `stat`. -/
def pathExists (stat : GoStr → StatOut) (path : GoStr) : Bool :=
  match stat path with
  | StatOut.ok _ => true
  | StatOut.err isExist => isExist

/-- Embedding of `getFileSize` (identical in both variants): `0` when
`pathExists` fails, `0` when `os.Stat` errors, the reported size
otherwise. -/
def getFileSize (stat : GoStr → StatOut) (path : GoStr) : Int :=
  if !pathExists stat path then 0
  else
    match stat path with
    | StatOut.err _ => 0
    | StatOut.ok info => info.size

namespace Single

/-- The package-level mutable state of the single-handle variant.  The
`date` global is declared but never assigned anywhere in the file, so it
holds the zero value `""` forever; it is carried here verbatim. -/
structure State where
  logDir : GoStr
  timeLocation : Nat
  logFileMaxSize : Int
  date : GoStr
  started : Bool
  infoFile : Option FileInfo
  infoChanCap : Nat
  infoChan : List Log
deriving DecidableEq, Repr

/-- Embedding of `Init` from the single-handle variant.  Unlike
`logger.go`, there is no `started` guard: the function unconditionally
installs the configuration and spawns another worker. -/
def Init (st : State) (logDir : GoStr) (logFileMaxSize : Int)
    (timeLocation : Option Nat) (channelSize : Nat) : State :=
  { st with
    logDir := if logDir ≠ [] then logDir else st.logDir,
    logFileMaxSize := if logFileMaxSize ≠ 0 then logFileMaxSize
      else st.logFileMaxSize,
    timeLocation := timeLocation.getD st.timeLocation,
    infoChanCap := if channelSize = 0 then 1024 else channelSize,
    infoChan := [] }

/-- Embedding of `Push` from the single-handle variant: panic
`"logger not start"` when the worker loop has not started, otherwise
enqueue. -/
def Push (st : State) (data : Log) : Except GoStr State :=
  if !st.started then Except.error "logger not start".data
  else Except.ok { st with infoChan := st.infoChan ++ [data] }

/-- Result of handling one dequeued record in `writeLog`: the state after
the step, the handle written to, the bytes, and whether the handle was
closed right after the write (the per-write path) or kept cached. -/
structure StepResult where
  state : State
  target : FileInfo
  written : GoStr
  closedAfterWrite : Bool
deriving DecidableEq, Repr

/-- Embedding of the body of the `writeLog` select loop for one record.
`newF` abstracts `newFile`: the handle a fresh open of the given level's
base file returns.  For `dbg`/`wrn`/`err` the record gets a freshly opened
file that is closed immediately; everything else shares `infoFile`, which
is (re)opened when absent and replaced when the cached size exceeds
`logFileMaxSize` or when
`strings.Index(record date, date) != 0` — with the never-assigned `date`
global. -/
def writeLogStep (newF : GoStr → FileInfo) (st : State) (lg : Log) :
    StepResult :=
  if lg.Level = DebugLevel ∨ lg.Level = WarnLevel ∨ lg.Level = ErrorLevel then
    let file := newF lg.Level
    { state := st, target := file, written := formatLine lg,
      closedAfterWrite := true }
  else
    let st1 := if st.infoFile = none then { st with infoFile := some (newF InfoLevel) }
      else st
    let stat := st1.infoFile.getD ⟨[], 0⟩
    let st2 :=
      if stat.size > st1.logFileMaxSize ∨ ¬goIndex (formatDate lg.Time) st1.date = 0 then
        { st1 with infoFile := some (newF InfoLevel) }
      else st1
    { state := st2, target := st2.infoFile.getD ⟨[], 0⟩,
      written := formatLine lg, closedAfterWrite := false }

end Single
namespace Single

/-- The constant part of each emitted line: timestamp, upper-cased level
and origin, with their separators. -/
def lineHdr (lg : Log) : GoStr :=
  formatTimestamp lg.Time ++ " [".data ++ goToUpper lg.Level ++ "] [".data
    ++ lg.Line ++ "] ".data

end Single
/-! ### The archiving model (`renameFile` and the size-triggered rotation)

A directory is an association list from file name (relative to the
severity directory, whose common `fileDir` prefix is elided) to an
identity tag; tags let the theorems speak about which on-disk file a name
denotes after renames.  Names are unique in every directory the
development builds. -/

/-- Embedding of `os.Rename(src, dst)` on such a directory: the entry
named `src` is renamed to `dst`, silently overwriting any previous `dst`
(as `rename(2)` does); when `src` is absent the call fails and
`renameFile` ignores the error, leaving the directory unchanged. -/
def osRename (src dst : GoStr) (fs : List (GoStr × Nat)) :
    List (GoStr × Nat) :=
  match fs.find? (fun e => decide (e.1 = src)) with
  | none => fs
  | some e => fs.filter (fun x => decide (x.1 ≠ src ∧ x.1 ≠ dst)) ++ [(dst, e.2)]

/-- One outer iteration of the double `for` loop in `renameFile`: scan the
tail, swapping the carried element with any strictly larger-suffix entry;
returns the element left at position `i` and the reordered tail. -/
def bubbleMax (key : GoStr × Nat → Nat) :
    GoStr × Nat → List (GoStr × Nat) → (GoStr × Nat) × List (GoStr × Nat)
  | x, [] => (x, [])
  | x, y :: ys =>
    if key x < key y then
      let r := bubbleMax key y ys
      (r.1, x :: r.2)
    else
      let r := bubbleMax key x ys
      (r.1, y :: r.2)

/-- The double `for` loop of `renameFile`: in-place selection sort by
descending `key`, ties left in listing order. -/
def selSort (key : GoStr × Nat → Nat) :
    List (GoStr × Nat) → List (GoStr × Nat)
  | [] => []
  | x :: xs => (bubbleMax key x xs).1 :: selSort key (bubbleMax key x xs).2
termination_by l => l.length
decreasing_by
  simp_wf
  have hlen : ∀ (y : GoStr × Nat) (l : List (GoStr × Nat)),
      (bubbleMax key y l).2.length = l.length := by
    intro y l
    induction l generalizing y with
    | nil => rfl
    | cons z zs ih =>
      by_cases h : key y < key z <;> simp [bubbleMax, h, ih]
  simp [hlen]

/-- The renaming loop at the bottom of `renameFile`:
`for i := range dateFile { os.Rename(dir+dateFile[i].Name(), dir+"<date>_<k-i>.log") }`
with `k = len(dateFile)`; `dateFile` is a snapshot of names, `fs` the live
directory. -/
def doRenames (d : GoStr) (k : Nat) :
    Nat → List (GoStr × Nat) → List (GoStr × Nat) → List (GoStr × Nat)
  | _, [], fs => fs
  | i, e :: rest, fs => doRenames d k (i + 1) rest (osRename e.1 (bkName d (k - i)) fs)

/-- Embedding of `renameFile(fileDir, date)` from `logger.go`: list the
directory, keep the entries whose name begins with `date`
(`strings.Index(name, date) == 0`; the directories built here contain no
subdirectories, so the `IsDir` filter is vacuous), sort them by descending
numeric suffix with the double loop, then rename the i-th of that order to
`<date>_<k-i>.log`.  `ioutil.ReadDir` yields the entries sorted by name;
listing order only reaches the outcome through `getSuffix` ties, and every
directory this development evaluates the function on has pairwise distinct
suffixes, so the association list's own order stands in for the listing. -/
def renameFile (d : GoStr) (fs : List (GoStr × Nat)) : List (GoStr × Nat) :=
  let dateFile := fs.filter (fun e => goHasPre d e.1)
  let sorted := selSort (fun e => getSuffix e.1) dateFile
  doRenames d sorted.length 0 sorted fs

/-- One size-triggered rotation of date `d`'s base file: the `newFile`
path in which the severity directory exists and `getFileSize` of
`<date>.log` exceeds `logFileMaxSize` — `renameFile` archives, then
`os.OpenFile(..., os.O_CREATE, ...)` creates a fresh empty base file,
given identity tag `fresh`. -/
def rotateStep (d : GoStr) (fresh : Nat) (fs : List (GoStr × Nat)) :
    List (GoStr × Nat) :=
  renameFile d fs ++ [(baseName d, fresh)]

/-- `k` consecutive size-triggered rotations within one date, starting
from a directory holding only the base file (tag `0`); the base file
created by rotation `r` carries tag `r`. -/
def rotations (d : GoStr) (k : Nat) : List (GoStr × Nat) :=
  (List.range k).foldl (fun fs r => rotateStep d (r + 1) fs) [(baseName d, 0)]

/-- Closed form of `rotations`: backups `<d>_r ... <d>_1` in descending
suffix order, the one with suffix `i` tagged `r - i`, then the live base
file tagged `r`. -/
def canonicalDir (d : GoStr) (r : Nat) : List (GoStr × Nat) :=
  (List.range r).map (fun j => (bkName d (r - j), j)) ++ [(baseName d, r)]

/-! ### Concrete sample data for witnesses and counterexamples -/

/-- A date string as produced by `Format("2006-01-02")`. -/
def dStr : GoStr := "2024-01-01".data

def t2024 : GoTime := ⟨2024, 1, 1, 3, 4, 5⟩

def sampleLog : Log :=
  { Level := Multi.infoLevel, Time := t2024, Line := "main.go:10".data,
    Message := "a\nb".data }

def mState0 : Multi.State :=
  { logDir := "./log/".data, timeLocation := 0,
    logFileMaxSize := 1073741824, logChanCap := 1024, logChan := [],
    outputScreen := false, useColor := false, started := false, fileMap := [] }

def mState1 : Multi.State := { mState0 with started := true }

def cfg0 : Config :=
  { LogDir := "/tmp/x".data, LogFileMaxSize := 100, TimeLocation := none,
    ChannelSize := 4, OutputScreen := false, UseColor := false }

def sState1 : Single.State :=
  { logDir := "./log/".data, timeLocation := 0,
    logFileMaxSize := 1073741824, date := [], started := true,
    infoFile := none, infoChanCap := 1024, infoChan := [] }

/-- A stat oracle that always fails with an error `os.IsExist` rejects. -/
def statFail : GoStr → StatOut := fun _ => StatOut.err false

/-- A file-open oracle: a fresh empty handle on the level's base file. -/
def newF0 : GoStr → FileInfo := fun level => ⟨level ++ dStr ++ ".log".data, 0⟩

def oddLog : Log :=
  { Level := "xyz".data, Time := t2024, Line := "m.go:1".data,
    Message := "q".data }

def lgDbg : Log :=
  { Level := Single.DebugLevel, Time := t2024, Line := "m.go:2".data,
    Message := "x".data }

def lgInf : Log :=
  { Level := Single.InfoLevel, Time := t2024, Line := "m.go:3".data,
    Message := "y".data }

def tailLog : Log :=
  { Level := Single.InfoLevel, Time := t2024, Line := "m.go:4".data,
    Message := "done\n".data }

def infoF : FileInfo := ⟨baseName dStr, 10⟩

def sState2 : Single.State := { sState1 with infoFile := some infoF }

/-- A cached handle opened for `2024-01-01`, well under any size bound. -/
def cachedF : FileInfo := ⟨baseName dStr, 5⟩

def fm0 : List (GoStr × FileInfo) := [(Multi.infoLevel, cachedF)]

/-- The entry at loop index `i` of the sorted snapshot when rotating a
directory in the `canonicalDir d r` shape: the base file sits last. -/
def oldEntry (d : GoStr) (r i : Nat) : GoStr × Nat :=
  if i = r then (baseName d, r) else (bkName d (r - i), i)

/-- The part of the snapshot not yet renamed after `m` loop iterations. -/
def remDir (d : GoStr) (r m : Nat) : List (GoStr × Nat) :=
  (List.range' m (r + 1 - m)).map (oldEntry d r)

/-- The renamed entries produced by the first `m` loop iterations. -/
def newDir (d : GoStr) (r m : Nat) : List (GoStr × Nat) :=
  (List.range m).map (fun i => (bkName d (r + 1 - i), i))

/-! ### Theorems -/
/-! ### Basic facts about the string operations -/

theorem goSplit_ne_nil (sep : Char) (s : GoStr) : goSplit sep s ≠ [] := by
  cases s with
  | nil => simp [goSplit]
  | cons c rest =>
    simp only [goSplit]
    cases h : goSplit sep rest with
    | nil => simp
    | cons p ps =>
      by_cases hc : c = sep <;> simp [hc]

theorem goSplit_not_mem {sep : Char} {s : GoStr} (h : sep ∉ s) :
    goSplit sep s = [s] := by
  induction s with
  | nil => rfl
  | cons c rest ih =>
    have hc : c ≠ sep := fun hh => h (hh ▸ List.mem_cons_self c rest)
    have hr : sep ∉ rest := fun hh => h (List.mem_cons_of_mem c hh)
    simp only [goSplit, ih hr]
    simp [hc]

theorem goSplit_append_sep {sep : Char} {a : GoStr} (b : GoStr)
    (h : sep ∉ a) : goSplit sep (a ++ sep :: b) = a :: goSplit sep b := by
  induction a with
  | nil =>
    simp only [List.nil_append, goSplit]
    cases hb : goSplit sep b with
    | nil => exact absurd hb (goSplit_ne_nil sep b)
    | cons p ps => simp
  | cons c rest ih =>
    have hc : c ≠ sep := fun hh => h (hh ▸ List.mem_cons_self c rest)
    have hr : sep ∉ rest := fun hh => h (List.mem_cons_of_mem c hh)
    simp only [List.cons_append, goSplit]
    rw [show rest.append (sep :: b) = rest ++ sep :: b from rfl, ih hr]
    simp [hc]

theorem goSplit_sep_not_mem {sep : Char} {s : GoStr} :
    ∀ t ∈ goSplit sep s, sep ∉ t := by
  induction s with
  | nil =>
    intro t ht
    simp [goSplit] at ht
    simp [ht]
  | cons c rest ih =>
    intro t ht
    simp only [goSplit] at ht
    cases h : goSplit sep rest with
    | nil => exact absurd h (goSplit_ne_nil sep rest)
    | cons p ps =>
      rw [h] at ht
      by_cases hc : c = sep
      · simp [hc] at ht
        rcases ht with ht | ht | ht
        · simp [ht]
        · exact ih t (by rw [h, ht]; exact List.mem_cons_self p ps)
        · exact ih t (by rw [h]; exact List.mem_cons_of_mem p ht)
      · simp [hc] at ht
        rcases ht with ht | ht
        · subst ht
          intro hmem
          rcases List.mem_cons.mp hmem with h1 | h1
          · exact hc h1.symm
          · exact ih p (by rw [h]; exact List.mem_cons_self p ps) h1
        · exact ih t (by rw [h]; exact List.mem_cons_of_mem p ht)

theorem goSplit_length (sep : Char) (s : GoStr) :
    (goSplit sep s).length = s.count sep + 1 := by
  induction s with
  | nil => simp [goSplit]
  | cons c rest ih =>
    simp only [goSplit]
    cases h : goSplit sep rest with
    | nil => exact absurd h (goSplit_ne_nil sep rest)
    | cons p ps =>
      rw [h] at ih
      by_cases hc : c = sep
      · simp [hc, List.count_cons, ih]
      · simp only [if_neg hc]
        simp only [List.length_cons] at ih ⊢
        have : rest.count sep = (c :: rest).count sep := by
          simp [List.count_cons, hc]
        omega

theorem goHasPre_append (a b : GoStr) : goHasPre a (a ++ b) = true := by
  induction a with
  | nil => rfl
  | cons c rest ih => simp [goHasPre, ih]

theorem goHasPre_length {a b : GoStr} (h : goHasPre a b = true) :
    a.length ≤ b.length := by
  induction a generalizing b with
  | nil => simp
  | cons c rest ih =>
    cases b with
    | nil => simp [goHasPre] at h
    | cons d bs =>
      simp only [goHasPre, Bool.and_eq_true, decide_eq_true_eq] at h
      have := ih h.2
      simp [List.length_cons]
      omega

theorem goHasPre_eq_of_length {a b : GoStr} (h : goHasPre a b = true)
    (hl : b.length ≤ a.length) : a = b := by
  induction a generalizing b with
  | nil =>
    cases b with
    | nil => rfl
    | cons d bs => simp at hl
  | cons c rest ih =>
    cases b with
    | nil => simp [goHasPre] at h
    | cons d bs =>
      simp only [goHasPre, Bool.and_eq_true, decide_eq_true_eq] at h
      simp only [List.length_cons] at hl
      rw [h.1, ih h.2 (by omega)]

theorem goIndex_eq_zero_iff (s sub : GoStr) :
    goIndex s sub = 0 ↔ goHasPre sub s = true := by
  constructor
  · intro h
    by_contra hp
    cases s with
    | nil => simp [goIndex, hp] at h
    | cons c rest =>
      simp only [goIndex, if_neg hp] at h
      by_cases hr : goIndex rest sub = -1
      · simp [hr] at h
      · simp [hr] at h
        omega
  · intro h
    cases s with
    | nil => simp [goIndex, h]
    | cons c rest => simp [goIndex, h]

/-! ### Decimal rendering and parsing -/

theorem natDigitsAux_stable (fuel1 fuel2 n : Nat) (h1 : n < fuel1)
    (h2 : n < fuel2) : natDigitsAux fuel1 n = natDigitsAux fuel2 n := by
  induction n using Nat.strong_induction_on generalizing fuel1 fuel2 with
  | _ n ih =>
    cases fuel1 with
    | zero => omega
    | succ f1 =>
      cases fuel2 with
      | zero => omega
      | succ f2 =>
        simp only [natDigitsAux]
        by_cases hn : n < 10
        · simp [hn]
        · simp only [if_neg hn]
          have hd : n / 10 < n := Nat.div_lt_self (by omega) (by omega)
          rw [ih (n / 10) hd f1 f2 (by omega) (by omega)]

theorem natDigits_eq (n : Nat) :
    natDigits n =
      if n < 10 then [Nat.digitChar n]
      else natDigits (n / 10) ++ [Nat.digitChar (n % 10)] := by
  by_cases hn : n < 10
  · simp [natDigits, natDigitsAux, hn]
  · have hd : n / 10 < n := Nat.div_lt_self (by omega) (by omega)
    rw [if_neg hn]
    show natDigitsAux (n + 1) n = _
    rw [natDigitsAux, if_neg hn,
      natDigitsAux_stable n (n / 10 + 1) (n / 10) (by omega) (by omega)]
    rfl

theorem digitChar_isDigit {d : Nat} (h : d < 10) :
    (Nat.digitChar d).isDigit = true := by
  interval_cases d <;> decide

theorem digitVal_digitChar {d : Nat} (h : d < 10) :
    digitVal (Nat.digitChar d) = d := by
  interval_cases d <;> decide

theorem natDigits_all_digit (n : Nat) :
    ∀ c ∈ natDigits n, c.isDigit = true := by
  induction n using Nat.strong_induction_on with
  | _ n ih =>
    intro c hc
    rw [natDigits_eq] at hc
    by_cases hn : n < 10
    · simp [hn] at hc
      rw [hc]; exact digitChar_isDigit hn
    · simp only [if_neg hn, List.mem_append, List.mem_singleton] at hc
      rcases hc with hc | hc
      · exact ih (n / 10) (Nat.div_lt_self (by omega) (by omega)) c hc
      · rw [hc]; exact digitChar_isDigit (Nat.mod_lt n (by omega))

theorem natDigits_ne_nil (n : Nat) : natDigits n ≠ [] := by
  rw [natDigits_eq]
  by_cases hn : n < 10 <;> simp [hn]

theorem parseNat_append (a b : GoStr) :
    parseNat (a ++ b) = b.foldl (fun x c => x * 10 + digitVal c) (parseNat a) := by
  simp [parseNat, List.foldl_append]

theorem parseNat_natDigits (n : Nat) : parseNat (natDigits n) = n := by
  induction n using Nat.strong_induction_on with
  | _ n ih =>
    rw [natDigits_eq]
    by_cases hn : n < 10
    · simp only [if_pos hn, parseNat, List.foldl_cons, List.foldl_nil]
      rw [digitVal_digitChar hn]; omega
    · simp only [if_neg hn]
      rw [parseNat_append, ih (n / 10) (Nat.div_lt_self (by omega) (by omega))]
      simp only [List.foldl_cons, List.foldl_nil]
      rw [digitVal_digitChar (Nat.mod_lt n (by omega))]
      omega

theorem atoiNat_natDigits (n : Nat) : atoiNat (natDigits n) = n := by
  rw [atoiNat, if_pos, parseNat_natDigits]
  exact ⟨natDigits_ne_nil n, List.all_eq_true.mpr fun c hc => natDigits_all_digit n c hc⟩

theorem natDigits_injective {m n : Nat} (h : natDigits m = natDigits n) :
    m = n := by
  have := parseNat_natDigits m
  rw [h, parseNat_natDigits] at this
  omega

theorem natDigits_no_underscore (n : Nat) : '_' ∉ natDigits n := by
  intro h
  have := natDigits_all_digit n '_' h
  simp [Char.isDigit] at this

theorem natDigits_no_dot (n : Nat) : '.' ∉ natDigits n := by
  intro h
  have := natDigits_all_digit n '.' h
  simp [Char.isDigit] at this

theorem getSuffix_bkName {d : GoStr} (h : '_' ∉ d) (n : Nat) :
    getSuffix (bkName d n) = n := by
  have h1 : '_' ∉ natDigits n ++ ".log".data := by
    intro hmem
    rcases List.mem_append.mp hmem with hm | hm
    · exact natDigits_no_underscore n hm
    · simp [String.data] at hm
  have h2 : '.' ∉ natDigits n := natDigits_no_dot n
  have hsplit : goSplit '_' (bkName d n) = d :: [natDigits n ++ ".log".data] := by
    have : bkName d n = d ++ '_' :: (natDigits n ++ ".log".data) := by
      simp [bkName, String.data]
    rw [this, goSplit_append_sep _ h, goSplit_not_mem h1]
  have hdot : goSplit '.' (natDigits n ++ ".log".data) =
      natDigits n :: goSplit '.' "log".data := by
    have : natDigits n ++ ".log".data = natDigits n ++ '.' :: "log".data := by
      simp [String.data]
    rw [this, goSplit_append_sep _ h2]
  rw [getSuffix, hsplit]
  simp only [hdot]
  simp [atoiNat_natDigits]

theorem getSuffix_baseName {d : GoStr} (h : '_' ∉ d) :
    getSuffix (baseName d) = 0 := by
  have h1 : '_' ∉ baseName d := by
    intro hmem
    rcases List.mem_append.mp hmem with hm | hm
    · exact h hm
    · simp [String.data] at hm
  rw [getSuffix, goSplit_not_mem h1]

theorem bkName_inj {d : GoStr} {m n : Nat} (h : bkName d m = bkName d n) :
    m = n := by
  simp only [bkName, List.append_assoc, List.append_cancel_left_eq] at h
  have := List.append_inj_left' h (by simp)
  exact natDigits_injective this

theorem bkName_ne_baseName (d : GoStr) (n : Nat) : bkName d n ≠ baseName d := by
  intro h
  simp only [bkName, baseName, List.append_assoc, List.append_cancel_left_eq] at h
  have : '_' = '.' := by
    have h4 : ("_".data ++ (natDigits n ++ ".log".data)).head? = (".log".data).head? := by
      rw [h]
    simp [String.data] at h4
  simp at this

theorem goHasPre_bkName (d : GoStr) (n : Nat) : goHasPre d (bkName d n) = true := by
  simpa [bkName, List.append_assoc] using
    goHasPre_append d ("_".data ++ natDigits n ++ ".log".data)

theorem goHasPre_baseName (d : GoStr) : goHasPre d (baseName d) = true :=
  goHasPre_append d ".log".data

theorem natDigits_length_le {n k : Nat} (hk : 1 ≤ k) (h : n < 10 ^ k) :
    (natDigits n).length ≤ k := by
  induction k generalizing n with
  | zero => omega
  | succ k ih =>
    rw [natDigits_eq]
    by_cases hn : n < 10
    · simp [hn]
    · rw [if_neg hn]
      have hk1 : 1 ≤ k := by
        by_contra hk0
        have : k = 0 := by omega
        subst this
        simp [pow_succ] at h
        omega
      have : n / 10 < 10 ^ k := by
        rw [Nat.div_lt_iff_lt_mul (by omega)]
        calc n < 10 ^ (k + 1) := h
        _ = 10 ^ k * 10 := by ring
      have := ih hk1 this
      simp only [List.length_append, List.length_singleton]
      omega

theorem padZero_length {w : Nat} {s : GoStr} (h : s.length ≤ w) :
    (padZero w s).length = w := by
  simp [padZero]
  omega

theorem pad2_length {n : Nat} (h : n < 100) : (pad2 n).length = 2 :=
  padZero_length (natDigits_length_le (by omega) h)

theorem pad4_length {n : Nat} (h : n < 10000) : (pad4 n).length = 4 :=
  padZero_length (natDigits_length_le (by omega) h)

theorem formatDate_length {t : GoTime} (h : ValidTime t) :
    (formatDate t).length = 10 := by
  obtain ⟨hy, hm, hd⟩ := h
  simp [formatDate, pad4_length hy, pad2_length hm, pad2_length hd, String.data]

theorem padZero_chars {w : Nat} {s : GoStr} :
    ∀ c ∈ padZero w s, c = '0' ∨ c ∈ s := by
  intro c hc
  rcases List.mem_append.mp hc with hm | hm
  · exact Or.inl (List.eq_of_mem_replicate hm)
  · exact Or.inr hm

theorem pad2_chars {n : Nat} : ∀ c ∈ pad2 n, c.isDigit = true := by
  intro c hc
  rcases padZero_chars c hc with h | h
  · rw [h]; decide
  · exact natDigits_all_digit n c h

theorem pad4_chars {n : Nat} : ∀ c ∈ pad4 n, c.isDigit = true := by
  intro c hc
  rcases padZero_chars c hc with h | h
  · rw [h]; decide
  · exact natDigits_all_digit n c h

theorem formatDate_chars {t : GoTime} :
    ∀ c ∈ formatDate t, c.isDigit = true ∨ c = '-' := by
  intro c hc
  simp only [formatDate, List.append_assoc, List.mem_append] at hc
  rcases hc with h | h | h | h | h
  · exact Or.inl (pad4_chars c h)
  · simp [String.data] at h; exact Or.inr h
  · exact Or.inl (pad2_chars c h)
  · simp [String.data] at h; exact Or.inr h
  · exact Or.inl (pad2_chars c h)

theorem formatTimestamp_chars {t : GoTime} :
    ∀ c ∈ formatTimestamp t, c.isDigit = true ∨ c = '-' ∨ c = ' ' ∨ c = ':' := by
  intro c hc
  simp only [formatTimestamp, List.append_assoc, List.mem_append] at hc
  rcases hc with h | h | h | h | h | h
  · rcases formatDate_chars c h with h1 | h1
    · exact Or.inl h1
    · exact Or.inr (Or.inl h1)
  · simp [String.data] at h; simp [h]
  · exact Or.inl (pad2_chars c h)
  · simp [String.data] at h; simp [h]
  · exact Or.inl (pad2_chars c h)
  · rcases h with h | h
    · simp [String.data] at h; simp [h]
    · exact Or.inl (pad2_chars c h)

theorem formatDate_no_dot {t : GoTime} : '.' ∉ formatDate t := by
  intro h
  rcases formatDate_chars '.' h with h1 | h1 <;> simp [Char.isDigit] at h1

theorem formatTimestamp_no_newline {t : GoTime} : '\n' ∉ formatTimestamp t := by
  intro h
  rcases formatTimestamp_chars '\n' h with h1 | h1 | h1 | h1 <;>
    simp [Char.isDigit] at h1

/-- Two equally wide date renderings agree exactly when one is a prefix of
the other: the `strings.Index(..., date) != 0` test in `write` coincides
with date inequality. -/
theorem goHasPre_formatDate_iff {t u : GoTime} (ht : ValidTime t)
    (hu : ValidTime u) :
    goHasPre (formatDate u) (formatDate t) = true ↔ formatDate t = formatDate u := by
  constructor
  · intro h
    exact (goHasPre_eq_of_length h
      (by rw [formatDate_length ht, formatDate_length hu])).symm
  · intro h
    rw [h]
    simpa using goHasPre_append (formatDate u) []

/-! ### Decomposing formatter output -/

theorem char_toNat_ofNat {m : Nat} (h : m < 55296) : (Char.ofNat m).toNat = m := by
  simp [Char.ofNat, Nat.isValidChar, h, Char.ofNatAux, Char.toNat, UInt32.toNat]

theorem goUpperChar_eq_newline {c : Char} (h : goUpperChar c = '\n') :
    c = '\n' := by
  unfold goUpperChar at h
  by_cases hc : 97 ≤ c.toNat ∧ c.toNat ≤ 122
  · rw [if_pos hc] at h
    have := congrArg Char.toNat h
    rw [char_toNat_ofNat (by omega)] at this
    have hn : '\n'.toNat = 10 := by decide
    omega
  · rwa [if_neg hc] at h

theorem goToUpper_no_newline {s : GoStr} (h : '\n' ∉ s) :
    '\n' ∉ goToUpper s := by
  intro hmem
  obtain ⟨c, hc, hce⟩ := List.mem_map.mp hmem
  exact h (goUpperChar_eq_newline hce ▸ hc)

namespace Single

theorem lineHdr_no_newline {lg : Log} (hLevel : '\n' ∉ lg.Level)
    (hLine : '\n' ∉ lg.Line) : '\n' ∉ lineHdr lg := by
  intro h
  simp only [lineHdr, List.append_assoc, List.mem_append] at h
  rcases h with h | h | h | h | h | h
  · exact formatTimestamp_no_newline h
  · simp [String.data] at h
  · exact goToUpper_no_newline hLevel h
  · simp [String.data] at h
  · exact hLine h
  · simp [String.data] at h

theorem formatLine_fold_aux (lg : Log) (l : List GoStr) (init : GoStr) :
    l.foldl (fun result seg =>
      result ++ formatTimestamp lg.Time ++ " [".data ++ goToUpper lg.Level
        ++ "] [".data ++ lg.Line ++ "] ".data ++ seg ++ ['\n']) init
    = init ++ (l.map (fun seg => lineHdr lg ++ seg ++ ['\n'])).flatten := by
  induction l generalizing init with
  | nil => simp
  | cons s rest ih =>
    simp only [List.foldl_cons, List.map_cons, List.flatten_cons, ih, lineHdr]
    simp [List.append_assoc]

theorem formatLine_eq_flatten (lg : Log) :
    formatLine lg =
      ((goSplit '\n' lg.Message).map
        (fun seg => lineHdr lg ++ seg ++ ['\n'])).flatten := by
  unfold formatLine
  rw [formatLine_fold_aux]
  simp

end Single

theorem goSplit_flatten_lines {hdr : GoStr} (hh : '\n' ∉ hdr) :
    ∀ segs : List GoStr, segs ≠ [] → (∀ s ∈ segs, '\n' ∉ s) →
      goSplit '\n' ((segs.map (fun s => hdr ++ s ++ ['\n'])).flatten)
        = segs.map (fun s => hdr ++ s) ++ [[]] := by
  intro segs
  induction segs with
  | nil => intro h; exact absurd rfl h
  | cons s rest ih =>
    intro _ hmem
    have hs : '\n' ∉ s := hmem s (List.mem_cons_self s rest)
    have hps : '\n' ∉ hdr ++ s := by
      intro hx
      rcases List.mem_append.mp hx with hx | hx
      · exact hh hx
      · exact hs hx
    by_cases hrest : rest = []
    · subst hrest
      simp only [List.map_cons, List.map_nil, List.flatten_cons,
        List.flatten_nil, List.append_nil]
      rw [show hdr ++ s ++ ['\n'] = (hdr ++ s) ++ '\n' :: [] by
        simp [List.append_assoc]]
      rw [goSplit_append_sep _ hps]
      rfl
    · have hmem' : ∀ t ∈ rest, '\n' ∉ t :=
        fun t ht => hmem t (List.mem_cons_of_mem s ht)
      simp only [List.map_cons, List.flatten_cons]
      rw [show hdr ++ s ++ ['\n'] ++ (rest.map (fun t => hdr ++ t ++ ['\n'])).flatten
          = (hdr ++ s) ++ '\n' :: (rest.map (fun t => hdr ++ t ++ ['\n'])).flatten by
        simp [List.append_assoc]]
      rw [goSplit_append_sep _ hps, ih hrest hmem']
      rfl

theorem count_flatten_lines {hdr : GoStr} (hh : '\n' ∉ hdr) :
    ∀ segs : List GoStr, (∀ s ∈ segs, '\n' ∉ s) →
      ((segs.map (fun s => hdr ++ s ++ ['\n'])).flatten).count '\n' = segs.length := by
  intro segs
  induction segs with
  | nil => intro _; simp
  | cons s rest ih =>
    intro hmem
    have hs : '\n' ∉ s := hmem s (List.mem_cons_self s rest)
    have hmem' : ∀ t ∈ rest, '\n' ∉ t :=
      fun t ht => hmem t (List.mem_cons_of_mem s ht)
    simp only [List.map_cons, List.flatten_cons, List.count_append, ih hmem',
      List.length_cons]
    rw [List.count_eq_zero.mpr hh, List.count_eq_zero.mpr hs]
    simp [Nat.add_comm]

theorem flatten_lines_concat (hdr : GoStr) :
    ∀ segs : List GoStr, segs ≠ [] →
      ∃ pre, ((segs.map (fun s => hdr ++ s ++ ['\n'])).flatten) = pre ++ ['\n'] := by
  intro segs
  induction segs with
  | nil => intro h; exact absurd rfl h
  | cons s rest ih =>
    intro _
    by_cases hrest : rest = []
    · subst hrest
      exact ⟨hdr ++ s, by simp⟩
    · obtain ⟨pre, hp⟩ := ih hrest
      refine ⟨hdr ++ s ++ ['\n'] ++ pre, ?_⟩
      rw [List.map_cons, List.flatten_cons, hp]
      simp [List.append_assoc]

/-! ### Claim C7: stat failures are absorbed -/

/-- C7: a failure of the size lookup during rotation checks is absorbed,
not propagated — whenever `os.Stat` errors on a path, `getFileSize`
returns `0` (the file is treated as nonexistent / size zero), so a stat
failure alone can never surface an error or panic. -/
theorem getFileSize_absorbs_stat_error (stat : GoStr → StatOut)
    (path : GoStr) (e : Bool) (h : stat path = StatOut.err e) :
    getFileSize stat path = 0 := by
  cases e <;> simp [getFileSize, pathExists, h]

/-- C7 witness: a concrete always-failing stat oracle is absorbed into
size `0`. -/
theorem getFileSize_absorbs_stat_error_witness :
    statFail "x".data = StatOut.err false ∧ getFileSize statFail "x".data = 0 :=
  ⟨rfl, getFileSize_absorbs_stat_error statFail "x".data false rfl⟩

/-! ### Claim C3: `Push` before the worker loop -/

/-- C3 counterexample: `Push` before the worker has started does panic
without enqueuing, but the panic message is `"logger not start"`, not
`"logger not started"` as the claim quotes. -/
theorem Push_message_counterexample :
    mState0.started = false ∧
    Multi.Push mState0 sampleLog = Except.error "logger not start".data ∧
    "logger not start".data ≠ "logger not started".data :=
  ⟨rfl, rfl, by decide⟩

/-- C3 (amended): every `Push` made before the worker loop has begun
fails with the fatal usage error `"logger not start"` (a panic), and the
record is never enqueued — the panic produces no successor state. -/
theorem Push_before_start_panics (st : Multi.State) (lg : Log)
    (h : st.started = false) :
    Multi.Push st lg = Except.error "logger not start".data := by
  simp [Multi.Push, h]

/-- C3 witness: the amended theorem at a concrete stopped state. -/
theorem Push_before_start_panics_witness :
    mState0.started = false ∧
    Multi.Push mState0 sampleLog = Except.error "logger not start".data :=
  ⟨rfl, Push_before_start_panics mState0 sampleLog rfl⟩

/-! ### Claim C6: re-initialization -/

/-- C6 counterexample: the single-handle variant's `Init` has no
`started` guard — invoked again while the logger is running it returns
normally (its embedding is a total function into `State`, with no panic
outcome) and overwrites the established configuration. -/
theorem Init_reinit_counterexample :
    sState1.started = true ∧
    (Single.Init sState1 "/tmp/y".data 7 none 2).logDir = "/tmp/y".data ∧
    sState1.logDir ≠ "/tmp/y".data ∧
    (Single.Init sState1 "/tmp/y".data 7 none 2).logFileMaxSize ≠
      sState1.logFileMaxSize :=
  ⟨rfl, rfl, by decide, by decide⟩

/-- C6 (amended): in the multi-file variant (`logger.go`), calling `Init`
again after the logger has started is a fatal usage error — it panics
with `"logger started"` before any assignment, so the established
configuration is untouched; the single-handle variant performs no such
guard (see the counterexample). -/
theorem Init_after_start_panics (st : Multi.State) (config : Config)
    (h : st.started = true) :
    Multi.Init st config = Except.error "logger started".data := by
  simp [Multi.Init, h]

/-- C6 witness: the amended theorem at a concrete started state. -/
theorem Init_after_start_panics_witness :
    mState1.started = true ∧
    Multi.Init mState1 cfg0 = Except.error "logger started".data :=
  ⟨rfl, Init_after_start_panics mState1 cfg0 rfl⟩

/-! ### Claim C5: formatter purity -/

theorem foldl_preserve {α β γ : Type} (f : α × β → γ → α × β)
    (hf : ∀ a s, (f a s).2 = a.2) (l : List γ) (a : α × β) :
    (l.foldl f a).2 = a.2 := by
  induction l generalizing a with
  | nil => rfl
  | cons s rest ih => rw [List.foldl_cons, ih, hf]

theorem formatLine_false_snd (lg : Log) : (Multi.formatLine false lg).2 = lg := by
  unfold Multi.formatLine
  apply foldl_preserve
  intro a s
  rfl

/-- C5 counterexample: with `useColor` enabled, `formatLine` mutates the
record it is given — `log.Level` is rewrapped in ANSI codes on every line
— so the record is changed by formatting and formatting the same record
again yields different bytes. -/
theorem formatLine_color_counterexample :
    (Multi.formatLine true sampleLog).2 ≠ sampleLog ∧
    (Multi.formatLine true ((Multi.formatLine true sampleLog).2)).1 ≠
      (Multi.formatLine true sampleLog).1 :=
  ⟨by decide, by decide⟩

/-- C5 (amended): the formatter is deterministic, and with color output
disabled it is pure — the record comes back unchanged and formatting the
returned record again yields identical output; with `useColor` set,
`formatLine` rewrites `log.Level` in place and repeated formatting
diverges (see the counterexample). -/
theorem formatLine_pure_without_color (lg : Log) :
    (Multi.formatLine false lg).2 = lg ∧
    Multi.formatLine false ((Multi.formatLine false lg).2) =
      Multi.formatLine false lg := by
  refine ⟨formatLine_false_snd lg, ?_⟩
  rw [formatLine_false_snd lg]

/-! ### Claim C9: unknown levels fall through to the info bucket -/

/-- C9: a dequeued record whose `Level` is none of `"DBG"`, `"WRN"`,
`"ERR"` is routed to the `INF` bucket — whose directory name is the
lower-cased `"inf"` — and its formatted bytes are still written, rather
than the record being rejected or dropped. -/
theorem write_unknown_level_uses_info_bucket (newF : GoStr → FileInfo)
    (useColor : Bool) (maxSize : Int) (fileMap : List (GoStr × FileInfo))
    (lg : Log)
    (h : ¬(lg.Level = Multi.debugLevel ∨ lg.Level = Multi.warnLevel ∨
      lg.Level = Multi.errorLevel)) :
    Multi.bucketOf lg.Level = Multi.infoLevel ∧
    goToLower Multi.infoLevel = "inf".data ∧
    (Multi.write newF useColor maxSize fileMap lg).level = Multi.infoLevel ∧
    (Multi.write newF useColor maxSize fileMap lg).written =
      (Multi.formatLine useColor lg).1 := by
  have hb : Multi.bucketOf lg.Level = Multi.infoLevel := by
    simp [Multi.bucketOf, h]
  refine ⟨hb, by decide, ?_, ?_⟩
  · simp only [Multi.write]
    split <;> simp [hb]
  · simp only [Multi.write]
    split <;> simp

/-- C9 witness: a record with the unrecognized level `"xyz"` lands in the
`INF` bucket and its bytes are written. -/
theorem write_unknown_level_uses_info_bucket_witness :
    Multi.bucketOf oddLog.Level = Multi.infoLevel ∧
    goToLower Multi.infoLevel = "inf".data ∧
    (Multi.write newF0 false 100 [] oddLog).level = Multi.infoLevel ∧
    (Multi.write newF0 false 100 [] oddLog).written =
      (Multi.formatLine false oddLog).1 :=
  write_unknown_level_uses_info_bucket newF0 false 100 [] oddLog (by decide)

/-! ### Claim C8: reference bucketing policy -/

/-- C8: in the single-handle variant, every dequeued `dbg`/`wrn`/`err`
record gets a freshly opened file of its own severity, receives the
formatted bytes and is closed within that single write — the cached
`infoFile` untouched — while an `inf` record goes through the long-lived
cached handle, rotated lazily (kept unchanged whenever it exists, is not
oversized, and the date test passes). -/
theorem writeLogStep_bucketing (newF : GoStr → FileInfo) (st : Single.State)
    (lg : Log) :
    (lg.Level = Single.DebugLevel ∨ lg.Level = Single.WarnLevel ∨
        lg.Level = Single.ErrorLevel →
      Single.writeLogStep newF st lg =
        { state := st, target := newF lg.Level,
          written := Single.formatLine lg, closedAfterWrite := true }) ∧
    (lg.Level = Single.InfoLevel →
      (Single.writeLogStep newF st lg).closedAfterWrite = false ∧
      ∀ f : FileInfo, st.infoFile = some f → ¬f.size > st.logFileMaxSize →
        goIndex (formatDate lg.Time) st.date = 0 →
        (Single.writeLogStep newF st lg).state = st ∧
        (Single.writeLogStep newF st lg).target = f ∧
        (Single.writeLogStep newF st lg).written = Single.formatLine lg) := by
  constructor
  · intro h
    simp [Single.writeLogStep, h]
  · intro hinf
    have hnot : ¬(lg.Level = Single.DebugLevel ∨ lg.Level = Single.WarnLevel ∨
        lg.Level = Single.ErrorLevel) := by
      rw [hinf]; decide
    constructor
    · simp [Single.writeLogStep, hnot]
    · intro f hf hsize hdate
      simp [Single.writeLogStep, hnot, hf, hsize, hdate]

/-- C8 witness: a concrete `dbg` record is written per-write and closed; a
concrete `inf` record reuses the cached handle. -/
theorem writeLogStep_bucketing_witness :
    Single.writeLogStep newF0 sState2 lgDbg =
      { state := sState2, target := newF0 lgDbg.Level,
        written := Single.formatLine lgDbg, closedAfterWrite := true } ∧
    (Single.writeLogStep newF0 sState2 lgInf).state = sState2 ∧
    (Single.writeLogStep newF0 sState2 lgInf).target = infoF ∧
    (Single.writeLogStep newF0 sState2 lgInf).closedAfterWrite = false := by
  have h1 := writeLogStep_bucketing newF0 sState2 lgDbg
  have h2 := writeLogStep_bucketing newF0 sState2 lgInf
  refine ⟨h1.1 (Or.inl rfl), ?_, ?_, (h2.2 rfl).1⟩
  · exact ((h2.2 rfl).2 infoF rfl (by decide) (by decide)).1
  · exact ((h2.2 rfl).2 infoF rfl (by decide) (by decide)).2.1

/-! ### Claim C4: one line per message segment -/

/-- C4: the formatter splits the message on embedded newlines and emits
exactly one terminated line per segment — splitting its output on `'\n'`
gives precisely one `"<timestamp> [<LEVEL>] [<origin>] <segment>"` entry
per message segment, all sharing the same timestamp, upper-cased level and
origin (`Single.lineHdr`), followed by the empty remainder after the last
terminator. -/
theorem formatLine_one_line_per_segment (lg : Log) (hLevel : '\n' ∉ lg.Level)
    (hLine : '\n' ∉ lg.Line) :
    goSplit '\n' (Single.formatLine lg) =
      (goSplit '\n' lg.Message).map (fun seg => Single.lineHdr lg ++ seg)
        ++ [[]] := by
  rw [Single.formatLine_eq_flatten]
  exact goSplit_flatten_lines (Single.lineHdr_no_newline hLevel hLine)
    (goSplit '\n' lg.Message) (goSplit_ne_nil _ _)
    (fun s hs => goSplit_sep_not_mem s hs)

/-- C4 witness: the theorem at a concrete record whose message holds one
embedded newline. -/
theorem formatLine_one_line_per_segment_witness :
    '\n' ∉ sampleLog.Level ∧ '\n' ∉ sampleLog.Line ∧
    goSplit '\n' (Single.formatLine sampleLog) =
      (goSplit '\n' sampleLog.Message).map
        (fun seg => Single.lineHdr sampleLog ++ seg) ++ [[]] :=
  ⟨by decide, by decide,
    formatLine_one_line_per_segment sampleLog (by decide) (by decide)⟩

/-! ### Claim C10: output terminated, line count -/

/-- C10: formatter output is never empty and always ends in a newline; the
number of emitted lines — newline characters in the output — equals the
number of newline characters in the message plus one, so a message ending
in a newline yields a final line with an empty segment. -/
theorem formatLine_terminated_line_count (lg : Log) (hLevel : '\n' ∉ lg.Level)
    (hLine : '\n' ∉ lg.Line) :
    Single.formatLine lg ≠ [] ∧
    (Single.formatLine lg).getLast? = some '\n' ∧
    (Single.formatLine lg).count '\n' = lg.Message.count '\n' + 1 := by
  have hflat := Single.formatLine_eq_flatten lg
  obtain ⟨pre, hp⟩ := flatten_lines_concat (Single.lineHdr lg)
    (goSplit '\n' lg.Message) (goSplit_ne_nil _ _)
  refine ⟨?_, ?_, ?_⟩
  · rw [hflat, hp]; simp
  · rw [hflat, hp]
    exact List.getLast?_concat _
  · rw [hflat, count_flatten_lines (Single.lineHdr_no_newline hLevel hLine) _
      (fun s hs => goSplit_sep_not_mem s hs)]
    exact goSplit_length '\n' lg.Message

/-- C10 witness: the theorem at a concrete record whose message ends in a
newline. -/
theorem formatLine_terminated_line_count_witness :
    '\n' ∉ tailLog.Level ∧ '\n' ∉ tailLog.Line ∧
    Single.formatLine tailLog ≠ [] ∧
    (Single.formatLine tailLog).getLast? = some '\n' ∧
    (Single.formatLine tailLog).count '\n' = tailLog.Message.count '\n' + 1 := by
  have h := formatLine_terminated_line_count tailLog (by decide) (by decide)
  exact ⟨by decide, by decide, h.1, h.2.1, h.2.2⟩

/-! ### Claim C1: the rotation decision in `write` -/

theorem write_openedNew_eq (newF : GoStr → FileInfo) (useColor : Bool)
    (maxSize : Int) (fileMap : List (GoStr × FileInfo)) (lg : Log) :
    (Multi.write newF useColor maxSize fileMap lg).openedNew =
      Multi.needNewFile (fileMap.lookup (Multi.bucketOf lg.Level)) maxSize
        (formatDate lg.Time) := by
  simp only [Multi.write]
  split <;> simp_all

theorem write_reuses_cached (newF : GoStr → FileInfo) (useColor : Bool)
    (maxSize : Int) (fileMap : List (GoStr × FileInfo)) (lg : Log)
    (h : Multi.needNewFile (fileMap.lookup (Multi.bucketOf lg.Level)) maxSize
      (formatDate lg.Time) = false) :
    (Multi.write newF useColor maxSize fileMap lg).fileMap = fileMap ∧
    (Multi.write newF useColor maxSize fileMap lg).target =
      (fileMap.lookup (Multi.bucketOf lg.Level)).getD ⟨[], 0⟩ := by
  simp [Multi.write, h]

/-- C1: for a dequeued record, `write` opens a new target file exactly
when no cached handle exists for the record's bucket, or the cached
handle's size exceeds `logFileMaxSize`, or the record's calendar date
(rendered `YYYY-MM-DD` in the configured zone) differs from the date the
cached file was opened for — the date its name carries; otherwise the
cached handle is reused and the file map is left unchanged. -/
theorem write_opens_new_file_iff (newF : GoStr → FileInfo) (useColor : Bool)
    (maxSize : Int) (fileMap : List (GoStr × FileInfo)) (lg : Log)
    (hlg : ValidTime lg.Time) :
    (fileMap.lookup (Multi.bucketOf lg.Level) = none →
      (Multi.write newF useColor maxSize fileMap lg).openedNew = true) ∧
    (∀ (f : FileInfo) (d0 : GoTime), ValidTime d0 →
      fileMap.lookup (Multi.bucketOf lg.Level) = some f →
      f.name = formatDate d0 ++ ".log".data →
      (((Multi.write newF useColor maxSize fileMap lg).openedNew = true ↔
        f.size > maxSize ∨ formatDate lg.Time ≠ formatDate d0) ∧
       ((Multi.write newF useColor maxSize fileMap lg).openedNew = false →
        (Multi.write newF useColor maxSize fileMap lg).fileMap = fileMap ∧
        (Multi.write newF useColor maxSize fileMap lg).target = f))) := by
  constructor
  · intro hnone
    rw [write_openedNew_eq, hnone]
    rfl
  · intro f d0 hd0 hsome hname
    have hdate : (goSplit '.' f.name).headD [] = formatDate d0 := by
      rw [hname]
      rw [show formatDate d0 ++ ".log".data
          = formatDate d0 ++ '.' :: "log".data from rfl]
      rw [goSplit_append_sep _ formatDate_no_dot]
      rfl
    have hidx : goIndex (formatDate lg.Time) (formatDate d0) = 0 ↔
        formatDate lg.Time = formatDate d0 := by
      rw [goIndex_eq_zero_iff]
      exact goHasPre_formatDate_iff hlg hd0
    have hneed : Multi.needNewFile (some f) maxSize (formatDate lg.Time) = true ↔
        (f.size > maxSize ∨ formatDate lg.Time ≠ formatDate d0) := by
      simp only [Multi.needNewFile, hdate, Bool.or_eq_true, decide_eq_true_eq,
        Bool.not_eq_true', decide_eq_false_iff_not]
      rw [hidx]
    constructor
    · rw [write_openedNew_eq, hsome]
      exact hneed
    · intro hfalse
      rw [write_openedNew_eq, hsome] at hfalse
      have := write_reuses_cached newF useColor maxSize fileMap lg
        (by rw [hsome]; exact hfalse)
      rw [hsome] at this
      exact ⟨this.1, by rw [this.2]; rfl⟩

/-- C1 witness: with a cached `INF` handle opened for `2024-01-01` and
well under the size bound, a same-day record reuses it unchanged. -/
theorem write_opens_new_file_iff_witness :
    ValidTime sampleLog.Time ∧ ValidTime t2024 ∧
    fm0.lookup (Multi.bucketOf sampleLog.Level) = some cachedF ∧
    cachedF.name = formatDate t2024 ++ ".log".data ∧
    ((Multi.write newF0 false 100 fm0 sampleLog).openedNew = true ↔
      cachedF.size > 100 ∨ formatDate sampleLog.Time ≠ formatDate t2024) ∧
    ((Multi.write newF0 false 100 fm0 sampleLog).openedNew = false →
      (Multi.write newF0 false 100 fm0 sampleLog).fileMap = fm0 ∧
      (Multi.write newF0 false 100 fm0 sampleLog).target = cachedF) := by
  have h := write_opens_new_file_iff newF0 false 100 fm0 sampleLog (by decide)
  have h2 := h.2 cachedF t2024 (by decide) (by decide) (by decide)
  exact ⟨by decide, by decide, by decide, by decide, h2.1, h2.2⟩

/-! ### Claim C2: backup renumbering -/

theorem bubbleMax_noswap (key : GoStr × Nat → Nat) (x : GoStr × Nat)
    (l : List (GoStr × Nat)) (h : ∀ y ∈ l, key y ≤ key x) :
    bubbleMax key x l = (x, l) := by
  induction l with
  | nil => rfl
  | cons y ys ih =>
    have hy : key y ≤ key x := h y (List.mem_cons_self y ys)
    have hys : ∀ z ∈ ys, key z ≤ key x :=
      fun z hz => h z (List.mem_cons_of_mem y hz)
    simp [bubbleMax, Nat.not_lt.mpr hy, ih hys]

theorem selSort_sorted_fix (key : GoStr × Nat → Nat)
    (l : List (GoStr × Nat))
    (h : l.Pairwise (fun a b => key b ≤ key a)) : selSort key l = l := by
  induction l with
  | nil => rw [selSort]
  | cons x xs ih =>
    rw [List.pairwise_cons] at h
    rw [selSort, bubbleMax_noswap key x xs h.1]
    simp [ih h.2]

theorem canonicalDir_names_pre (d : GoStr) (r : Nat) :
    ∀ e ∈ canonicalDir d r, goHasPre d e.1 = true := by
  intro e he
  rcases List.mem_append.mp he with h | h
  · obtain ⟨j, _, rfl⟩ := List.mem_map.mp h
    exact goHasPre_bkName d (r - j)
  · simp only [List.mem_singleton] at h
    rw [h]
    exact goHasPre_baseName d

theorem canonicalDir_filter (d : GoStr) (r : Nat) :
    (canonicalDir d r).filter (fun e => goHasPre d e.1) = canonicalDir d r :=
  List.filter_eq_self.mpr (fun e he => canonicalDir_names_pre d r e he)

theorem canonicalDir_pairwise (d : GoStr) (hd : '_' ∉ d) (r : Nat) :
    (canonicalDir d r).Pairwise (fun a b => getSuffix b.1 ≤ getSuffix a.1) := by
  rw [canonicalDir, List.pairwise_append]
  refine ⟨?_, by simp, ?_⟩
  · rw [List.pairwise_map]
    have hlt : (List.range r).Pairwise (· < ·) := List.pairwise_lt_range r
    refine List.Pairwise.imp_of_mem ?_ hlt
    intro a b ha hb hab
    simp only [List.mem_range] at ha hb
    rw [getSuffix_bkName hd, getSuffix_bkName hd]
    omega
  · intro a ha b hb
    simp only [List.mem_singleton] at hb
    obtain ⟨j, _, rfl⟩ := List.mem_map.mp ha
    rw [hb]
    rw [getSuffix_baseName hd]
    omega

theorem canonicalDir_length (d : GoStr) (r : Nat) :
    (canonicalDir d r).length = r + 1 := by
  simp [canonicalDir]

theorem selSort_canonicalDir (d : GoStr) (hd : '_' ∉ d) (r : Nat) :
    selSort (fun e => getSuffix e.1) (canonicalDir d r) = canonicalDir d r :=
  selSort_sorted_fix _ _ (canonicalDir_pairwise d hd r)

theorem remDir_cons (d : GoStr) (r m : Nat) (hm : m ≤ r) :
    remDir d r m = oldEntry d r m :: remDir d r (m + 1) := by
  rw [remDir, remDir, show r + 1 - m = (r - m) + 1 by omega,
    show r + 1 - (m + 1) = r - m by omega, List.range'_succ, List.map_cons]

theorem osRename_step (d : GoStr) (r m : Nat) (hm : m ≤ r) :
    osRename (oldEntry d r m).1 (bkName d (r + 1 - m))
      ((oldEntry d r m :: remDir d r (m + 1)) ++ newDir d r m)
      = remDir d r (m + 1) ++ newDir d r (m + 1) := by
  have hsnd : (oldEntry d r m).2 = m := by
    unfold oldEntry
    split <;> simp_all
  have hne : ∀ e ∈ remDir d r (m + 1) ++ newDir d r m,
      e.1 ≠ (oldEntry d r m).1 ∧ e.1 ≠ bkName d (r + 1 - m) := by
    intro e he
    rcases List.mem_append.mp he with h | h
    · obtain ⟨j, hj, rfl⟩ := List.mem_map.mp h
      rw [List.mem_range'_1] at hj
      have hj1 : m + 1 ≤ j := hj.1
      have hj2 : j ≤ r := by omega
      have hmr : m < r := by omega
      simp only [oldEntry]
      rw [if_neg (show ¬m = r by omega)]
      by_cases hjr : j = r
      · rw [if_pos hjr]
        exact ⟨fun hc => bkName_ne_baseName d (r - m) hc.symm,
          fun hc => bkName_ne_baseName d (r + 1 - m) hc.symm⟩
      · rw [if_neg hjr]
        constructor
        · intro hc
          have := bkName_inj hc
          omega
        · intro hc
          have := bkName_inj hc
          omega
    · obtain ⟨i, hi, rfl⟩ := List.mem_map.mp h
      rw [List.mem_range] at hi
      constructor
      · rw [oldEntry]
        by_cases hmr : m = r
        · rw [if_pos hmr]
          exact fun hc => bkName_ne_baseName d (r + 1 - i) hc
        · rw [if_neg hmr]
          intro hc
          have := bkName_inj hc
          omega
      · intro hc
        have := bkName_inj hc
        omega
  have hfind : (((oldEntry d r m :: remDir d r (m + 1)) ++ newDir d r m).find?
      (fun e => decide (e.1 = (oldEntry d r m).1))) = some (oldEntry d r m) := by
    rw [List.cons_append]
    exact List.find?_cons_of_pos _ (by simp)
  simp only [osRename, hfind]
  rw [hsnd, List.cons_append, List.filter_cons_of_neg (by simp)]
  rw [List.filter_eq_self.mpr (fun e he => by
    have := hne e he
    simp [this.1, this.2])]
  rw [List.append_assoc]
  congr 1
  rw [newDir, newDir, List.range_succ, List.map_append]
  rfl

theorem doRenames_spec (d : GoStr) (r : Nat) :
    ∀ n m, m + n = r + 1 →
      doRenames d (r + 1) m (remDir d r m) (remDir d r m ++ newDir d r m)
        = newDir d r (r + 1) := by
  intro n
  induction n with
  | zero =>
    intro m hm
    have hm' : m = r + 1 := by omega
    subst hm'
    have hrem : remDir d r (r + 1) = [] := by
      rw [remDir, show r + 1 - (r + 1) = 0 by omega]
      rfl
    rw [hrem, List.nil_append, doRenames]
  | succ n ih =>
    intro m hm
    have hmr : m ≤ r := by omega
    rw [remDir_cons d r m hmr, doRenames]
    rw [show r + 1 - m = r + 1 - m from rfl]
    rw [osRename_step d r m hmr]
    exact ih (m + 1) (by omega)

theorem canonicalDir_eq_remDir (d : GoStr) (r : Nat) :
    canonicalDir d r = remDir d r 0 := by
  rw [remDir, Nat.sub_zero, ← List.range_eq_range' (r + 1), List.range_succ,
    List.map_append, canonicalDir]
  congr 1
  · refine List.map_congr_left ?_
    intro j hj
    rw [List.mem_range] at hj
    rw [oldEntry, if_neg (by omega)]
  · rw [List.map_singleton, oldEntry, if_pos rfl]

theorem renameFile_canonicalDir (d : GoStr) (hd : '_' ∉ d) (r : Nat) :
    renameFile d (canonicalDir d r) = newDir d r (r + 1) := by
  simp only [renameFile]
  rw [canonicalDir_filter, selSort_canonicalDir d hd, canonicalDir_length]
  rw [canonicalDir_eq_remDir]
  have h0 : newDir d r 0 = [] := rfl
  have := doRenames_spec d r (r + 1) 0 (by omega)
  rw [h0, List.append_nil] at this
  exact this

theorem rotateStep_canonicalDir (d : GoStr) (hd : '_' ∉ d) (r : Nat) :
    rotateStep d (r + 1) (canonicalDir d r) = canonicalDir d (r + 1) := by
  rw [rotateStep, renameFile_canonicalDir d hd r]
  rfl

theorem rotations_canonicalDir (d : GoStr) (hd : '_' ∉ d) (k : Nat) :
    rotations d k = canonicalDir d k := by
  induction k with
  | zero => rfl
  | succ k ih =>
    rw [rotations, List.range_succ, List.foldl_append]
    simp only [List.foldl_cons, List.foldl_nil]
    rw [show (List.range k).foldl (fun fs r => rotateStep d (r + 1) fs)
      [(baseName d, 0)] = rotations d k from rfl, ih]
    exact rotateStep_canonicalDir d hd k

/-- C2 counterexample: run two size-triggered rotations of
`2024-01-01.log` (tags record which rotation created each physical file:
the original base is tag `0`, the base created by rotation `r` is tag
`r`).  With `k = 2`, the file named `2024-01-01_2.log` is tag `0` — the
base displaced by the FIRST rotation — while the file displaced by the
most recent (second) rotation, tag `1`, is named `2024-01-01_1.log`.  So
`_k` is not the most recently displaced file; `_1` is. -/
theorem rotations_two_counterexample :
    rotations dStr 2 =
      [(bkName dStr 2, 0), (bkName dStr 1, 1), (baseName dStr, 2)] ∧
    List.lookup (bkName dStr 2) (rotations dStr 2) = some 0 ∧
    List.lookup (bkName dStr 1) (rotations dStr 2) = some 1 ∧
    (0 : Nat) ≠ 1 := by
  have h := rotations_canonicalDir dStr (by decide) 2
  rw [h]
  refine ⟨by decide, by decide, by decide, by decide⟩

/-- C2 (amended): during rotation the files of the severity directory
whose names begin with the date are sorted by descending numeric suffix
(no suffix counting as `0`) and the i-th file of that order is renamed to
`<date>_<k-i>.log`, `k` the count of matching files; consequently, after
`k` consecutive size-triggered rotations within one date, exactly `k`
backup files exist, numbered `_1 ... _k` — with `_1` (not `_k`)
corresponding to the most recently displaced file, and `_k` to the
first-displaced one.  Tags record which rotation created each physical
file (the base displaced by rotation `r` was created by rotation `r - 1`),
so the entry `(bkName d i, k - i)` says backup `_i` is the base file that
rotation `k - i + 1` displaced. -/
theorem rotations_backup_numbering (d : GoStr) (hd : '_' ∉ d) (k : Nat)
    (hk : 1 ≤ k) :
    (rotations d k).map Prod.fst =
      (List.range k).map (fun j => bkName d (k - j)) ++ [baseName d] ∧
    ((rotations d k).map Prod.fst).Nodup ∧
    (∀ i, 1 ≤ i → i ≤ k → (bkName d i, k - i) ∈ rotations d k) ∧
    (bkName d 1, k - 1) ∈ rotations d k := by
  have hc := rotations_canonicalDir d hd k
  have hmem : ∀ i, 1 ≤ i → i ≤ k → (bkName d i, k - i) ∈ rotations d k := by
    intro i h1 hik
    rw [hc, canonicalDir]
    refine List.mem_append.mpr (Or.inl ?_)
    refine List.mem_map.mpr ⟨k - i, ?_, ?_⟩
    · rw [List.mem_range]; omega
    · rw [show k - (k - i) = i by omega]
  refine ⟨?_, ?_, hmem, hmem 1 (by omega) hk⟩
  · rw [hc, canonicalDir, List.map_append, List.map_map]
    rfl
  · rw [hc, canonicalDir, List.map_append, List.map_map]
    refine List.nodup_append.mpr ⟨?_, List.nodup_singleton _, ?_⟩
    · refine List.Nodup.map_on ?_ (List.nodup_range k)
      intro x hx y hy hxy
      rw [List.mem_range] at hx hy
      simp only [Function.comp] at hxy
      have := bkName_inj hxy
      omega
    · intro a ha hb
      simp only [List.map_singleton, List.mem_singleton] at hb
      obtain ⟨j, hj, rfl⟩ := List.mem_map.mp ha
      exact bkName_ne_baseName d (k - j) hb

/-- C2 witness: the amended theorem at `d = "2024-01-01"`, `k = 3`. -/
theorem rotations_backup_numbering_witness :
    '_' ∉ dStr ∧
    (rotations dStr 3).map Prod.fst =
      (List.range 3).map (fun j => bkName dStr (3 - j)) ++ [baseName dStr] ∧
    (bkName dStr 1, 2) ∈ rotations dStr 3 ∧
    (bkName dStr 3, 0) ∈ rotations dStr 3 := by
  have h := rotations_backup_numbering dStr (by decide) 3 (by decide)
  exact ⟨by decide, h.1, h.2.2.2, h.2.2.1 3 (by decide) (by decide)⟩

